import Mathlib

/-!
Shallow embedding of the hostcall-boundary subsystem of the mslibos runtime:
the hostcall routing table (ms_hostcall/src/lib.rs), the typed shared-buffer
channel (ms_std/src/agent.rs), the fatfs resource table
(common_service/fatfs/src/lib.rs), the isolation join loop
(bins/msvisor/src/main.rs) and the no_std Read trait (ms_std/src/io.rs).
Machine integers are modelled as Nat, with an explicit reduction modulo 2^32
where the source casts to u32.  A Rust panic is modelled as an explicit
constructor of the operation's outcome type.
-/

/- ===== ms_hostcall/src/lib.rs ===== -/

/-- The closed set of common hostcall identities, one constructor per variant
of `enum CommonHostCall`. -/
inductive CommonHostCall
  | Metric | FsImage
  | Write | Read | Open | Close | Connect | Socket | Bind | Accept
  | Stdout
  | FatfsOpen | FatfsWrite | FatfsRead | FatfsClose
  | SmoltcpAddrInfo | SmoltcpConnect | SmoltcpSend | SmoltcpRecv
  | SmoltcpBind | SmoltcpAccept | SmoltcpClose
  | BufferAlloc | AccessBuffer | BufferDealloc
  | GetTime
  deriving DecidableEq, Repr

/-- `enum HostCallID`: a common identity or a custom string-named one. -/
inductive HostCallID
  | Common : CommonHostCall → HostCallID
  | Custom : String → HostCallID
  deriving DecidableEq, Repr

/-- Outcome of `HostCallID::belong_to`: a service name, or the `todo!()`
panic of the `Custom` arm. -/
inductive BelongOutcome
  | ok : String → BelongOutcome
  | panicTodo : BelongOutcome
  deriving DecidableEq, Repr

/-- `HostCallID::belong_to`, arm for arm from the source `match`. -/
def belong_to : HostCallID → BelongOutcome
  | .Common c =>
    match c with
    | .Metric | .FsImage => .ok ""
    | .Write | .Open | .Read | .Close
    | .Connect | .Socket | .Bind | .Accept => .ok "fdtab"
    | .Stdout => .ok "stdio"
    | .FatfsOpen | .FatfsWrite | .FatfsRead | .FatfsClose => .ok "fatfs"
    | .SmoltcpAddrInfo | .SmoltcpConnect | .SmoltcpSend | .SmoltcpRecv
    | .SmoltcpBind | .SmoltcpAccept | .SmoltcpClose => .ok "socket"
    | .BufferAlloc | .AccessBuffer | .BufferDealloc => .ok "buffer"
    | .GetTime => .ok "time"
  | .Custom _ => .panicTodo

/- ===== ms_std/src/agent.rs ===== -/

/-- Hostcalls issued through the `libos!` macro by the buffer channel. -/
inductive Hostcall
  | buffer_alloc (slot : String) (layoutSize layoutAlign fingerprint : Nat)
  | access_buffer (slot : String)
  | buffer_dealloc (addr : Nat) (layoutSize layoutAlign : Nat)
  deriving DecidableEq, Repr

/-- The observable state of a `DataBuffer<T>` handle: the raw address of the
boxed value and the `used` flag that marks a buffer obtained via the access
path. -/
structure DataBuffer where
  addr : Nat
  used : Bool
  deriving DecidableEq, Repr

/-- Outcome of `DataBuffer::with_slot`: the `expect("alloc failed.")` panic
when the allocation hostcall fails, or a buffer handle. -/
inductive AllocOutcome
  | panicAllocFailed : AllocOutcome
  | ok : DataBuffer → AllocOutcome
  deriving DecidableEq, Repr

/-- `DataBuffer::<T>::with_slot(slot)`, as a function of the host's reply to
the `buffer_alloc` hostcall.  `tfp` is `T::__fingerprint()`, `layoutSize` and
`layoutAlign` are `Layout::new::<T>()`.  The handle is created with
`used = false`. -/
def with_slot (tfp : Nat) (slot : String) (layoutSize layoutAlign : Nat)
    (allocResp : Option Nat) : AllocOutcome × List Hostcall :=
  (match allocResp with
   | none => .panicAllocFailed
   | some p => .ok { addr := p, used := false },
   [.buffer_alloc slot layoutSize layoutAlign tfp])

/-- `DataBuffer::<T>::new()` is `with_slot(String::new())`. -/
def DataBuffer.new (tfp layoutSize layoutAlign : Nat) (allocResp : Option Nat) :
    AllocOutcome × List Hostcall :=
  with_slot tfp "" layoutSize layoutAlign allocResp

/-- Outcome of `DataBuffer::from_buffer_slot`: the fingerprint-mismatch
panic, or an optional buffer handle. -/
inductive AccessOutcome
  | panicMismatch (got expected : Nat) : AccessOutcome
  | ok : Option DataBuffer → AccessOutcome
  deriving DecidableEq, Repr

/-- `DataBuffer::<T>::from_buffer_slot(slot)`, as a function of the host's
reply to the `access_buffer` hostcall.  `none` maps to `None`; a reply whose
fingerprint differs from `T::__fingerprint()` panics; otherwise the handle is
created with `used = true`. -/
def from_buffer_slot (tfp : Nat) (slot : String)
    (resp : Option (Nat × Nat)) : AccessOutcome × List Hostcall :=
  (match resp with
   | none => .ok none
   | some (raw_ptr, fingerprint) =>
     if fingerprint ≠ tfp then .panicMismatch fingerprint tfp
     else .ok (some { addr := raw_ptr, used := true }),
   [.access_buffer slot])

/-- `DataBuffer::<T>::from_buffer()` is `from_buffer_slot(String::new())`. -/
def from_buffer (tfp : Nat) (resp : Option (Nat × Nat)) :
    AccessOutcome × List Hostcall :=
  from_buffer_slot tfp "" resp

/-- `impl Drop for DataBuffer<T>`: the `buffer_dealloc` hostcall is issued
exactly when `used` is set. -/
def DataBuffer.dropHostcalls (layoutSize layoutAlign : Nat) (b : DataBuffer) :
    List Hostcall :=
  if b.used then [.buffer_dealloc b.addr layoutSize layoutAlign] else []

/-- Recognizer for deallocation hostcalls, used to count them in a trace. -/
def Hostcall.isDealloc : Hostcall → Bool
  | .buffer_dealloc _ _ _ => true
  | _ => false

/- ===== common_service/fatfs/src/lib.rs ===== -/

/-- The fatfs `FTABLE`: a growable vector of optional files.  The file object
itself (a `fatfs::File` over the filesystem image) is external to this core
and is modelled by an opaque numeric identity. -/
abbrev FTable := List (Option Nat)

/-- `fatfs_open`: creates or opens a file in the external filesystem (that
part always succeeds or panics inside the fatfs library and is out of scope),
pushes it as a new `Some` slot and returns `table.len() - 1` cast to `u32`. -/
def fatfs_open (table : FTable) (file : Nat) : FTable × Nat :=
  (table ++ [some file], table.length % 2 ^ 32)

/-- `fatfs_close`: under the lock, if `fd` is in bounds, swap the slot's
content out for `None`; afterwards return `Ok(())` exactly when something was
extracted, `Err(())` otherwise. -/
def fatfs_close (table : FTable) (fd : Nat) : FTable × Except Unit Unit :=
  if fd < table.length then
    (table.set fd none,
     match table[fd]? with
     | some (some _) => .ok ()
     | _ => .error ())
  else
    (table, .error ())

/-- `get_file_mut`: looks the slot up under the lock; `none` models the
`fd don't exist` panic taken when the slot is missing or tombstoned. -/
def get_file_mut (table : FTable) (fd : Nat) : Option Nat :=
  match table[fd]? with
  | some (some file) => some file
  | _ => none

/-- Outcome of a fatfs read/write call: the `fd don't exist` panic from
`get_file_mut`, or a success value. -/
inductive SvcOutcome (α : Type)
  | panicFdNotFound : SvcOutcome α
  | ok : α → SvcOutcome α
  deriving DecidableEq, Repr

/-- `fatfs_read(fd, buf)`: resolves the handle through `get_file_mut`, then
reads from the external file (modelled by its opaque identity). -/
def fatfs_read (table : FTable) (fd : Nat) : SvcOutcome Nat :=
  match get_file_mut table fd with
  | none => .panicFdNotFound
  | some file => .ok file

/-- `fatfs_write(fd, buf)`: resolves the handle through `get_file_mut`, then
writes and flushes the external file and returns `Ok(buf.len())`. -/
def fatfs_write (table : FTable) (fd : Nat) (bufLen : Nat) : SvcOutcome Nat :=
  match get_file_mut table fd with
  | none => .panicFdNotFound
  | some _ => .ok bufLen

/-- A structural operation on the fatfs table, for stating properties over
arbitrary interleavings of opens and closes. -/
inductive FatfsOp
  | opOpen (file : Nat)
  | opClose (fd : Nat)
  deriving DecidableEq, Repr

/-- State transition of one structural operation. -/
def fatfsStep (table : FTable) : FatfsOp → FTable
  | .opOpen f => (fatfs_open table f).1
  | .opClose fd => (fatfs_close table fd).1

/-- Run a sequence of structural operations. -/
def fatfsRun (table : FTable) : List FatfsOp → FTable
  | [] => table
  | op :: ops => fatfsRun (fatfsStep table op) ops

/- ===== bins/msvisor/src/main.rs ===== -/

/-- The `--metrics` mode. -/
inductive MetricOpt
  | noneOpt | allOpt | memOpt
  deriving DecidableEq, Repr

/-- What an isolation's thread produced by the time it is joined: `normal r`
when the thread ran to completion and `join()` returns `Ok(r)` with `r` the
entry point's application-level result, `abnormal` when the thread terminated
abnormally and `join()` returns `Err`. -/
inductive ThreadOutcome
  | normal (appResult : Except String Unit)
  | abnormal

/-- One constructed isolation, listed in construction order, together with
the outcome its thread will be joined with. -/
structure IsolRun where
  id : Nat
  outcome : ThreadOutcome

/-- Observable events of the join loop in `main`. -/
inductive Event
  | joined (id : Nat)
  | logError (id : Nat) (msg : String)
  | analyzed (id : Nat)
  deriving DecidableEq, Repr

/-- The join loop of `main`: iterate over the isolations in construction
order; `join().expect("join failed")` panics the whole process on an abnormal
thread termination (the returned flag records that panic, and no further
isolation is processed); otherwise an `Err` entry-point result is logged
against the isolation's id, and metrics are analyzed unless the mode is
`None`. -/
def joinLoop (metrics : MetricOpt) : List IsolRun → List Event × Bool
  | [] => ([], false)
  | isol :: rest =>
    match isol.outcome with
    | .abnormal => ([.joined isol.id], true)
    | .normal appResult =>
      (.joined isol.id ::
        ((match appResult with
          | .error e => [Event.logError isol.id e]
          | .ok _ => []) ++
         (if metrics = .noneOpt then [] else [Event.analyzed isol.id]) ++
         (joinLoop metrics rest).1),
       (joinLoop metrics rest).2)

/-- The construction-order ids extracted from the `joined` events of a
trace. -/
def joinedIds (events : List Event) : List Nat :=
  events.filterMap fun e =>
    match e with
    | .joined i => some i
    | _ => none

/- ===== ms_std/src/io.rs ===== -/

/-- A reader modelled by the successive chunk results of its `read` calls
into the 1024-byte scratch buffer; once the list is exhausted further reads
return 0 bytes. -/
abbrev Chunks := List (List Nat)

/-- `Read::read_to_end`: loop reading chunks, breaking on the first read of 0
bytes, extending `buf` and accumulating the total size. -/
def read_to_end (buf : List Nat) : Chunks → List Nat × Nat
  | [] => (buf, 0)
  | c :: rest =>
    if c = [] then (buf, 0)
    else
      let r := read_to_end (buf ++ c) rest
      (r.1, c.length + r.2)

/-- Is `b` a UTF-8 continuation byte (`0x80..=0xBF`)? -/
def isCont (b : Nat) : Bool := 0x80 ≤ b && b ≤ 0xBF

/-- Valid range of the first continuation byte of a 3-byte sequence, by lead
byte (surrogate and overlong exclusions). -/
def valid3First (b b1 : Nat) : Bool :=
  if b = 0xE0 then 0xA0 ≤ b1 && b1 ≤ 0xBF
  else if b = 0xED then 0x80 ≤ b1 && b1 ≤ 0x9F
  else isCont b1

/-- Valid range of the first continuation byte of a 4-byte sequence, by lead
byte (overlong and beyond-U+10FFFF exclusions). -/
def valid4First (b b1 : Nat) : Bool :=
  if b = 0xF0 then 0x90 ≤ b1 && b1 ≤ 0xBF
  else if b = 0xF4 then 0x80 ≤ b1 && b1 ≤ 0x8F
  else isCont b1

/-- Fuel-indexed body of the lossy decoder; every step consumes at least one
byte, so any `fuel ≥ l.length` computes the decoding of `l`. -/
def utf8DecodeLossyAux : Nat → List Nat → List Nat
  | 0, _ => []
  | _ + 1, [] => []
  | fuel + 1, b :: rest =>
    if b < 0x80 then b :: utf8DecodeLossyAux fuel rest
    else if 0xC2 ≤ b && b ≤ 0xDF then
      match rest with
      | [] => [0xFFFD]
      | b1 :: rest1 =>
        if isCont b1 then
          ((b % 0x20) * 0x40 + b1 % 0x40) :: utf8DecodeLossyAux fuel rest1
        else 0xFFFD :: utf8DecodeLossyAux fuel (b1 :: rest1)
    else if 0xE0 ≤ b && b ≤ 0xEF then
      match rest with
      | [] => [0xFFFD]
      | b1 :: rest1 =>
        if valid3First b b1 then
          match rest1 with
          | [] => [0xFFFD]
          | b2 :: rest2 =>
            if isCont b2 then
              ((b % 0x10) * 0x1000 + (b1 % 0x40) * 0x40 + b2 % 0x40) ::
                utf8DecodeLossyAux fuel rest2
            else 0xFFFD :: utf8DecodeLossyAux fuel (b2 :: rest2)
        else 0xFFFD :: utf8DecodeLossyAux fuel (b1 :: rest1)
    else if 0xF0 ≤ b && b ≤ 0xF4 then
      match rest with
      | [] => [0xFFFD]
      | b1 :: rest1 =>
        if valid4First b b1 then
          match rest1 with
          | [] => [0xFFFD]
          | b2 :: rest2 =>
            if isCont b2 then
              match rest2 with
              | [] => [0xFFFD]
              | b3 :: rest3 =>
                if isCont b3 then
                  ((b % 0x08) * 0x40000 + (b1 % 0x40) * 0x1000 +
                      (b2 % 0x40) * 0x40 + b3 % 0x40) ::
                    utf8DecodeLossyAux fuel rest3
                else 0xFFFD :: utf8DecodeLossyAux fuel (b3 :: rest3)
            else 0xFFFD :: utf8DecodeLossyAux fuel (b2 :: rest2)
        else 0xFFFD :: utf8DecodeLossyAux fuel (b1 :: rest1)
    else 0xFFFD :: utf8DecodeLossyAux fuel rest

/-- `String::from_utf8_lossy`, producing the scalar values of the decoded
string: maximal valid sequences decode to their scalar value, every maximal
invalid subsequence (in the sense of the standard library's validation: the
offending lead byte together with its valid continuation prefix, or an
incomplete sequence at the end of input) is replaced by one U+FFFD. -/
def utf8DecodeLossy (l : List Nat) : List Nat :=
  utf8DecodeLossyAux l.length l

/-- Number of bytes of the UTF-8 encoding of one scalar value; `String::len`
in Rust is the sum of these over the string's characters. -/
def utf8Len (c : Nat) : Nat :=
  if c < 0x80 then 1 else if c < 0x800 then 2 else if c < 0x10000 then 3
  else 4

/-- Rust `String::len` of a string given by its scalar values. -/
def strLen (cs : List Nat) : Nat := (cs.map utf8Len).sum

/-- `Read::read_to_string`: read everything into a fresh byte vector,
replace `buf`'s content with the lossy decoding, return `Ok(buf.len())`.
The string is represented by its scalar values. -/
def read_to_string (buf : List Nat) (chunks : Chunks) : List Nat × Nat :=
  let v := (read_to_end [] chunks).1
  let s := utf8DecodeLossy v
  (s, strLen s)

/- ===== Theorems ===== -/

/-- Claim C1: when the access hostcall replies with a fingerprint different
from `T::__fingerprint()`, `DataBuffer::<T>::from_buffer_slot` panics (fatal
type confusion) and never constructs a typed buffer handle. -/
theorem from_buffer_slot_mismatch_panics (tfp : Nat) (slot : String)
    (raw fp : Nat) (h : fp ≠ tfp) :
    (from_buffer_slot tfp slot (some (raw, fp))).1 = .panicMismatch fp tfp ∧
    ∀ b : DataBuffer,
      (from_buffer_slot tfp slot (some (raw, fp))).1 ≠ .ok (some b) := by
  simp [from_buffer_slot, h]

/-- Witness for C1 at a concrete mismatching pair of fingerprints. -/
theorem from_buffer_slot_mismatch_panics_witness :
    (from_buffer_slot 10 "" (some (100, 11))).1 = .panicMismatch 11 10 ∧
    ∀ b : DataBuffer,
      (from_buffer_slot 10 "" (some (100, 11))).1 ≠ .ok (some b) :=
  from_buffer_slot_mismatch_panics 10 "" 100 11 (by decide)

/-- Claim C2: `belong_to` maps every common hostcall identity to exactly one
service name, following the routing table: Metric and FsImage to the empty
runtime-internal name; the fd calls to fdtab; Stdout to stdio; the fatfs
calls to fatfs; the smoltcp calls to socket; the buffer calls to buffer;
GetTime to time; no common identity is unmapped, and only the two
runtime-internal identities map to the empty name. -/
theorem belong_to_common_total_routing :
    (belong_to (.Common .Metric) = .ok "" ∧
     belong_to (.Common .FsImage) = .ok "" ∧
     belong_to (.Common .Write) = .ok "fdtab" ∧
     belong_to (.Common .Read) = .ok "fdtab" ∧
     belong_to (.Common .Open) = .ok "fdtab" ∧
     belong_to (.Common .Close) = .ok "fdtab" ∧
     belong_to (.Common .Connect) = .ok "fdtab" ∧
     belong_to (.Common .Socket) = .ok "fdtab" ∧
     belong_to (.Common .Bind) = .ok "fdtab" ∧
     belong_to (.Common .Accept) = .ok "fdtab" ∧
     belong_to (.Common .Stdout) = .ok "stdio" ∧
     belong_to (.Common .FatfsOpen) = .ok "fatfs" ∧
     belong_to (.Common .FatfsWrite) = .ok "fatfs" ∧
     belong_to (.Common .FatfsRead) = .ok "fatfs" ∧
     belong_to (.Common .FatfsClose) = .ok "fatfs" ∧
     belong_to (.Common .SmoltcpAddrInfo) = .ok "socket" ∧
     belong_to (.Common .SmoltcpConnect) = .ok "socket" ∧
     belong_to (.Common .SmoltcpSend) = .ok "socket" ∧
     belong_to (.Common .SmoltcpRecv) = .ok "socket" ∧
     belong_to (.Common .SmoltcpBind) = .ok "socket" ∧
     belong_to (.Common .SmoltcpAccept) = .ok "socket" ∧
     belong_to (.Common .SmoltcpClose) = .ok "socket" ∧
     belong_to (.Common .BufferAlloc) = .ok "buffer" ∧
     belong_to (.Common .AccessBuffer) = .ok "buffer" ∧
     belong_to (.Common .BufferDealloc) = .ok "buffer" ∧
     belong_to (.Common .GetTime) = .ok "time") ∧
    (∀ c : CommonHostCall, ∃ s : String, belong_to (.Common c) = .ok s) ∧
    (∀ c : CommonHostCall, ∀ s : String,
      belong_to (.Common c) = .ok s → s = "" →
      c = .Metric ∨ c = .FsImage) := by
  refine ⟨by decide, fun c => ?_, fun c s h he => ?_⟩
  · cases c <;> exact ⟨_, rfl⟩
  · subst he
    cases c <;>
      first
      | (left; rfl)
      | (right; rfl)
      | (exact absurd h (by decide))

/-- Witness for C2: the non-runtime-internal conjunct applied at a concrete
identity. -/
theorem belong_to_common_total_routing_witness :
    CommonHostCall.Metric = .Metric ∨ CommonHostCall.Metric = .FsImage :=
  belong_to_common_total_routing.2.2 .Metric "" rfl rfl

/-- Claim C3: a `DataBuffer` issues the deallocation hostcall on drop if and
only if it was obtained via the access path (`from_buffer_slot` and
`from_buffer` set `used = true`), never when created locally (`with_slot` and
`new` set `used = false`); across one allocate/access pair exactly one
deallocation hostcall occurs. -/
theorem dataBuffer_dealloc_iff_used :
    (∀ tfp slot ls la p b,
      (with_slot tfp slot ls la (some p)).1 = .ok b → b.used = false) ∧
    (∀ tfp ls la p b,
      (DataBuffer.new tfp ls la (some p)).1 = .ok b → b.used = false) ∧
    (∀ tfp slot resp b,
      (from_buffer_slot tfp slot resp).1 = .ok (some b) → b.used = true) ∧
    (∀ tfp resp b,
      (from_buffer tfp resp).1 = .ok (some b) → b.used = true) ∧
    (∀ ls la b,
      (DataBuffer.dropHostcalls ls la b).countP (·.isDealloc) =
        if b.used then 1 else 0) ∧
    (∀ tfp slot ls la p resp ba bb,
      (with_slot tfp slot ls la (some p)).1 = .ok ba →
      (from_buffer_slot tfp slot resp).1 = .ok (some bb) →
      ((with_slot tfp slot ls la (some p)).2 ++
        DataBuffer.dropHostcalls ls la ba ++
        (from_buffer_slot tfp slot resp).2 ++
        DataBuffer.dropHostcalls ls la bb).countP (·.isDealloc) = 1) := by
  have hws : ∀ tfp slot ls la p b,
      (with_slot tfp slot ls la (some p)).1 = AllocOutcome.ok b →
      b = ⟨p, false⟩ := by
    intro tfp slot ls la p b h
    simp [with_slot] at h
    simp [← h]
  have hfb : ∀ tfp slot resp b,
      (from_buffer_slot tfp slot resp).1 = AccessOutcome.ok (some b) →
      b.used = true := by
    intro tfp slot resp b h
    rcases resp with _ | ⟨raw, fp⟩
    · simp [from_buffer_slot] at h
    · by_cases hfp : fp = tfp
      · simp [from_buffer_slot, hfp] at h
        simp [← h]
      · simp [from_buffer_slot, hfp] at h
  refine ⟨fun tfp slot ls la p b h => by simp [hws tfp slot ls la p b h],
    fun tfp ls la p b h => by simp [hws tfp "" ls la p b h],
    hfb,
    fun tfp resp b h => hfb tfp "" resp b h,
    fun ls la b => ?_,
    fun tfp slot ls la p resp ba bb h1 h2 => ?_⟩
  · cases hb : b.used <;>
      simp [DataBuffer.dropHostcalls, hb, Hostcall.isDealloc]
  · have hba := hws tfp slot ls la p ba h1
    have hbb := hfb tfp slot resp bb h2
    subst hba
    simp [with_slot, from_buffer_slot, DataBuffer.dropHostcalls, hbb,
      Hostcall.isDealloc]

/-- Witness for C3 at a concrete allocate/access pair. -/
theorem dataBuffer_dealloc_iff_used_witness :
    ((with_slot 10 "s" 4 4 (some 100)).2 ++
      DataBuffer.dropHostcalls 4 4 ⟨100, false⟩ ++
      (from_buffer_slot 10 "s" (some (200, 10))).2 ++
      DataBuffer.dropHostcalls 4 4 ⟨200, true⟩).countP (·.isDealloc) = 1 :=
  dataBuffer_dealloc_iff_used.2.2.2.2.2 10 "s" 4 4 100 (some (200, 10))
    ⟨100, false⟩ ⟨200, true⟩ (by decide) (by decide)

/-- Claim C7: resolving a custom string-named hostcall identity through
`belong_to` always takes the `todo!()` panic, never returning a default
service name. -/
theorem belong_to_custom_panics :
    ∀ s : String, belong_to (.Custom s) = .panicTodo ∧
      ∀ name : String, belong_to (.Custom s) ≠ .ok name := by
  intro s
  exact ⟨rfl, fun name h => by simp [belong_to] at h⟩

/-- Claim C8: accessing a slot under which no buffer is registered yields the
explicit empty result, constructing no buffer handle and performing no
fingerprint comparison (the outcome does not depend on the expected
fingerprint). -/
theorem from_buffer_slot_none_yields_none :
    ∀ tfp slot, (from_buffer_slot tfp slot none).1 = .ok none ∧
      ∀ tfp2, (from_buffer_slot tfp slot none).1 =
        (from_buffer_slot tfp2 slot none).1 :=
  fun _ _ => ⟨rfl, fun _ => rfl⟩

/-- One structural operation never shrinks the fatfs table. -/
theorem fatfsStep_length_le (table : FTable) (op : FatfsOp) :
    table.length ≤ (fatfsStep table op).length := by
  cases op with
  | opOpen f => simp [fatfsStep, fatfs_open]
  | opClose fd =>
    simp only [fatfsStep, fatfs_close]
    split <;> simp

/-- A run of structural operations never shrinks the fatfs table. -/
theorem fatfsRun_length_le (table : FTable) (ops : List FatfsOp) :
    table.length ≤ (fatfsRun table ops).length := by
  induction ops generalizing table with
  | nil => simp [fatfsRun]
  | cons op ops ih =>
    exact le_trans (fatfsStep_length_le table op) (ih (fatfsStep table op))

/-- One structural operation keeps a slot either at its live resource or at
the empty tombstone. -/
theorem fatfsStep_slot (table : FTable) (op : FatfsOp) (i r : Nat)
    (h : table[i]? = some (some r) ∨ table[i]? = some none) :
    (fatfsStep table op)[i]? = some (some r) ∨
      (fatfsStep table op)[i]? = some none := by
  have hi : i < table.length := by
    by_contra hge
    rw [List.getElem?_eq_none (Nat.le_of_not_lt hge)] at h
    rcases h with h | h <;> exact Option.noConfusion h
  cases op with
  | opOpen f =>
    simpa [fatfsStep, fatfs_open, List.getElem?_append_left hi] using h
  | opClose fd =>
    simp only [fatfsStep, fatfs_close]
    split
    · by_cases hfd : fd = i
      · subst hfd
        right
        exact List.getElem?_set_self hi
      · simpa [List.getElem?_set_ne hfd] using h
    · exact h

/-- A run of structural operations keeps a slot either at its live resource
or at the empty tombstone. -/
theorem fatfsRun_slot (table : FTable) (ops : List FatfsOp) (i r : Nat)
    (h : table[i]? = some (some r) ∨ table[i]? = some none) :
    (fatfsRun table ops)[i]? = some (some r) ∨
      (fatfsRun table ops)[i]? = some none := by
  induction ops generalizing table with
  | nil => simpa [fatfsRun] using h
  | cons op ops ih =>
    exact ih (fatfsStep table op) (fatfsStep_slot table op i r h)

/-- Claim C5: handles returned by successive `fatfs_open` calls are strictly
increasing (within the reachable regime of the `u32` handle space), a slot
that once held a live resource only ever holds that same resource or the
empty tombstone afterwards, and `fatfs_close` replaces a slot's content by
the tombstone without compacting the table. -/
theorem fatfs_handle_stability :
    (∀ (st : FTable) (f1 : Nat) (ops : List FatfsOp) (f2 : Nat),
      (fatfsRun (fatfs_open st f1).1 ops).length < 2 ^ 32 →
      (fatfs_open st f1).2 <
        (fatfs_open (fatfsRun (fatfs_open st f1).1 ops) f2).2) ∧
    (∀ (st : FTable) (i r : Nat) (ops : List FatfsOp),
      st[i]? = some (some r) →
      (fatfsRun st ops)[i]? = some (some r) ∨
        (fatfsRun st ops)[i]? = some none) ∧
    (∀ (st : FTable) (fd : Nat), fd < st.length →
      (fatfs_close st fd).1.length = st.length ∧
      (fatfs_close st fd).1[fd]? = some none) := by
  refine ⟨fun st f1 ops f2 hlt => ?_, fun st i r ops h => ?_,
    fun st fd hfd => ?_⟩
  · have h1 : (fatfs_open st f1).1.length = st.length + 1 := by
      simp [fatfs_open]
    have h2 : (fatfs_open st f1).1.length ≤
        (fatfsRun (fatfs_open st f1).1 ops).length :=
      fatfsRun_length_le _ ops
    have e1 : (fatfs_open st f1).2 = st.length % 2 ^ 32 := rfl
    have e2 : (fatfs_open (fatfsRun (fatfs_open st f1).1 ops) f2).2 =
        (fatfsRun (fatfs_open st f1).1 ops).length % 2 ^ 32 := rfl
    rw [e1, e2, Nat.mod_eq_of_lt (by omega), Nat.mod_eq_of_lt hlt]
    omega
  · exact fatfsRun_slot st ops i r (Or.inl h)
  · constructor
    · simp [fatfs_close, hfd]
    · simp only [fatfs_close, hfd, if_pos]
      exact List.getElem?_set_self hfd

/-- Witness for C5 at a concrete table and operation sequence. -/
theorem fatfs_handle_stability_witness :
    (fatfs_open [] 5).2 <
      (fatfs_open (fatfsRun (fatfs_open [] 5).1 [.opClose 0]) 7).2 ∧
    ((fatfsRun [some 3] [.opOpen 4, .opClose 0])[0]? = some (some 3) ∨
      (fatfsRun [some 3] [.opOpen 4, .opClose 0])[0]? = some none) ∧
    (fatfs_close [some 3] 0).1.length = 1 ∧
    (fatfs_close [some 3] 0).1[0]? = some none :=
  ⟨fatfs_handle_stability.1 [] 5 [.opClose 0] 7 (by decide),
   fatfs_handle_stability.2.1 [some 3] 0 3 [.opOpen 4, .opClose 0] (by decide),
   (fatfs_handle_stability.2.2 [some 3] 0 (by decide)).1,
   (fatfs_handle_stability.2.2 [some 3] 0 (by decide)).2⟩

/-- Claim C6: after a successful `fatfs_close fd`, a second close of `fd`
returns the error value and leaves the table unchanged, `fatfs_read` and
`fatfs_write` on `fd` hit the not-found panic of the slot lookup, and closing
a handle that was never allocated (out of bounds) fails as well. -/
theorem fatfs_close_then_operations_fail :
    ∀ (st : FTable) (fd : Nat),
      ((fatfs_close st fd).2 = .ok () →
        fatfs_close (fatfs_close st fd).1 fd =
          ((fatfs_close st fd).1, .error ()) ∧
        fatfs_read (fatfs_close st fd).1 fd = .panicFdNotFound ∧
        (∀ n, fatfs_write (fatfs_close st fd).1 fd n = .panicFdNotFound)) ∧
      (st.length ≤ fd → (fatfs_close st fd).2 = .error ()) := by
  intro st fd
  constructor
  · intro h
    have hfd : fd < st.length := by
      by_contra hge
      simp [fatfs_close, hge] at h
    have hst : (fatfs_close st fd).1 = st.set fd none := by
      simp [fatfs_close, hfd]
    have hslot : (fatfs_close st fd).1[fd]? = some none := by
      rw [hst]
      exact List.getElem?_set_self hfd
    have hs2 : ((st.set fd none : FTable))[fd]? = some none :=
      List.getElem?_set_self (by simpa using hfd)
    refine ⟨?_, ?_, fun n => ?_⟩
    · rw [hst]
      simp [fatfs_close, hfd, hs2, List.set_set]
    · simp [fatfs_read, get_file_mut, hslot]
    · simp [fatfs_write, get_file_mut, hslot]
  · intro hge
    simp [fatfs_close, Nat.not_lt.mpr hge]

/-- Witness for C6 at a concrete one-entry table. -/
theorem fatfs_close_then_operations_fail_witness :
    (fatfs_close (fatfs_close [some 7] 0).1 0 =
      ((fatfs_close [some 7] 0).1, .error ()) ∧
     fatfs_read (fatfs_close [some 7] 0).1 0 = .panicFdNotFound ∧
     (∀ n, fatfs_write (fatfs_close [some 7] 0).1 0 n = .panicFdNotFound)) ∧
    (fatfs_close [some 7] 3).2 = .error () :=
  ⟨(fatfs_close_then_operations_fail [some 7] 0).1 (by rfl),
   (fatfs_close_then_operations_fail [some 7] 3).2 (by decide)⟩

/-- When the metrics mode is `None`, the join loop never emits an analyze
event. -/
theorem analyzed_notMem_joinLoop_none (isols : List IsolRun) (id : Nat) :
    Event.analyzed id ∉ (joinLoop .noneOpt isols).1 := by
  induction isols with
  | nil => simp [joinLoop]
  | cons isol rest ih =>
    cases ho : isol.outcome with
    | abnormal => simp [joinLoop, ho]
    | normal r => cases r <;> simp [joinLoop, ho, ih]

/-- When no thread terminates abnormally and metrics are enabled, every
isolation's analyze event appears strictly after its join event. -/
theorem joined_before_analyzed (m : MetricOpt) (hm : m ≠ .noneOpt) :
    ∀ isols : List IsolRun, (∀ i ∈ isols, i.outcome ≠ .abnormal) →
    ∀ i ∈ isols,
      [Event.joined i.id, Event.analyzed i.id].Sublist (joinLoop m isols).1 := by
  intro isols
  induction isols with
  | nil => intro _ i hi; exact absurd hi (List.not_mem_nil i)
  | cons isol rest ih =>
    intro h i hi
    cases ho : isol.outcome with
    | abnormal => exact absurd ho (h isol (List.mem_cons_self isol rest))
    | normal r =>
      rcases List.mem_cons.mp hi with heq | hmem
      · subst heq
        simp only [joinLoop, ho, if_neg hm]
        refine List.Sublist.cons₂ _ ?_
        simp only [List.append_assoc]
        exact (List.sublist_append_left _ _).trans
          (List.sublist_append_right _ _)
      · have hs := ih (fun j hj => h j (List.mem_cons_of_mem _ hj)) i hmem
        simp only [joinLoop, ho]
        exact (hs.trans (List.sublist_append_right _ _)).cons _

/-- Claim C4 counterexample: with a first isolation whose thread terminated
abnormally, the join loop panics (`expect("join failed")`): the failure is
not logged against the isolation's id and the sibling isolation is never
joined, logged or analyzed. -/
theorem joinLoop_abnormal_aborts_siblings :
    joinLoop .allOpt [⟨0, .abnormal⟩, ⟨1, .normal (.ok ())⟩] =
      ([.joined 0], true) ∧
    Event.joined 1 ∉ [Event.joined 0] ∧
    Event.analyzed 1 ∉ [Event.joined 0] ∧
    ∀ msg, Event.logError 0 msg ∉ [Event.joined 0] :=
  ⟨rfl, by decide, by decide, fun msg => by simp⟩

/-- Claim C4 (amended): the join loop processes isolations in construction
order; when no thread terminates abnormally the loop never panics, the
sequence of join events equals the construction order, and an entry point
returning an error is logged against that isolation's id without aborting
the processing of the remaining isolations. -/
theorem joinLoop_order_and_error_isolation (m : MetricOpt) :
    ∀ isols : List IsolRun, (∀ i ∈ isols, i.outcome ≠ .abnormal) →
      (joinLoop m isols).2 = false ∧
      joinedIds (joinLoop m isols).1 = isols.map (·.id) ∧
      (∀ i ∈ isols, ∀ e, i.outcome = .normal (.error e) →
        Event.logError i.id e ∈ (joinLoop m isols).1) := by
  intro isols
  induction isols with
  | nil => exact fun _ => ⟨rfl, rfl, by simp⟩
  | cons isol rest ih =>
    intro h
    have hhd : isol.outcome ≠ .abnormal := h isol (List.mem_cons_self isol rest)
    obtain ⟨hsnd, hids, hmem⟩ := ih (fun j hj => h j (List.mem_cons_of_mem _ hj))
    cases ho : isol.outcome with
    | abnormal => exact absurd ho hhd
    | normal r =>
      refine ⟨by simp [joinLoop, ho, hsnd], ?_, ?_⟩
      · have key : joinedIds (joinLoop m (isol :: rest)).1 =
            isol.id :: joinedIds (joinLoop m rest).1 := by
          cases r <;> by_cases hm : m = MetricOpt.noneOpt <;>
            simp [joinLoop, joinedIds, ho, hm]
        rw [key, hids]
        simp
      · intro i hi e hie
        rcases List.mem_cons.mp hi with heq | hmemi
        · subst heq
          rw [ho] at hie
          cases hie
          simp [joinLoop, ho]
        · have := hmem i hmemi e hie
          cases r <;> simp [joinLoop, ho, this]

/-- Witness for the amended C4 at a concrete pair of isolations, the first
of which fails at the application level. -/
theorem joinLoop_order_and_error_isolation_witness :
    (joinLoop .allOpt
      [⟨0, .normal (.error "x")⟩, ⟨1, .normal (.ok ())⟩]).2 = false ∧
    joinedIds (joinLoop .allOpt
      [⟨0, .normal (.error "x")⟩, ⟨1, .normal (.ok ())⟩]).1 =
      ([⟨0, .normal (.error "x")⟩, ⟨1, .normal (.ok ())⟩] :
        List IsolRun).map (·.id) ∧
    (∀ i ∈ ([⟨0, .normal (.error "x")⟩, ⟨1, .normal (.ok ())⟩] :
        List IsolRun), ∀ e, i.outcome = .normal (.error e) →
      Event.logError i.id e ∈ (joinLoop .allOpt
        [⟨0, .normal (.error "x")⟩, ⟨1, .normal (.ok ())⟩]).1) :=
  joinLoop_order_and_error_isolation .allOpt
    [⟨0, .normal (.error "x")⟩, ⟨1, .normal (.ok ())⟩]
    (by
      intro i hi
      rcases List.mem_cons.mp hi with rfl | hi
      · simp
      · rcases List.mem_cons.mp hi with rfl | hi
        · simp
        · exact absurd hi (List.not_mem_nil i))

/-- Claim C9 counterexample: with metrics enabled, an isolation whose thread
terminated abnormally is joined, yet its metrics are never analyzed, so the
unconditional "analyzed if and only if the mode is not none" fails. -/
theorem metric_analyze_missing_on_abnormal :
    (joinLoop .allOpt [⟨0, .abnormal⟩]).1 = [Event.joined 0] ∧
    MetricOpt.allOpt ≠ .noneOpt ∧
    Event.joined 0 ∈ (joinLoop .allOpt [⟨0, .abnormal⟩]).1 ∧
    Event.analyzed 0 ∉ (joinLoop .allOpt [⟨0, .abnormal⟩]).1 :=
  ⟨rfl, by decide, by decide, by decide⟩

/-- Claim C9 (amended): when no thread terminates abnormally, an isolation's metrics
are analyzed if and only if the metrics mode is not `None`, and the analyze
event occurs strictly after that isolation's join event. -/
theorem metric_analyze_iff_enabled_after_join (m : MetricOpt)
    (isols : List IsolRun) (h : ∀ i ∈ isols, i.outcome ≠ .abnormal) :
    ∀ i ∈ isols,
      ((Event.analyzed i.id ∈ (joinLoop m isols).1) ↔ m ≠ .noneOpt) ∧
      (m ≠ .noneOpt →
        [Event.joined i.id, Event.analyzed i.id].Sublist
          (joinLoop m isols).1) := by
  intro i hi
  have hsub : m ≠ .noneOpt →
      [Event.joined i.id, Event.analyzed i.id].Sublist (joinLoop m isols).1 :=
    fun hm => joined_before_analyzed m hm isols h i hi
  refine ⟨⟨fun hmem hmeq => ?_, fun hm => (hsub hm).subset (by simp)⟩, hsub⟩
  subst hmeq
  exact analyzed_notMem_joinLoop_none isols i.id hmem

/-- Witness for C9 at a concrete single isolation with metrics enabled. -/
theorem metric_analyze_iff_enabled_after_join_witness :
    ((Event.analyzed 0 ∈
        (joinLoop .allOpt [⟨0, .normal (.ok ())⟩]).1) ↔
      MetricOpt.allOpt ≠ .noneOpt) ∧
    (MetricOpt.allOpt ≠ .noneOpt →
      [Event.joined 0, Event.analyzed 0].Sublist
        (joinLoop .allOpt [⟨0, .normal (.ok ())⟩]).1) :=
  metric_analyze_iff_enabled_after_join .allOpt [⟨0, .normal (.ok ())⟩]
    (by
      intro i hi
      rcases List.mem_cons.mp hi with rfl | hi
      · simp
      · exact absurd hi (List.not_mem_nil i))
    ⟨0, .normal (.ok ())⟩ (by simp)

/-- Claim C10: `Read::read_to_string` overwrites the destination string's
prior content (the result does not depend on it and never appends to it)
with the lossy UTF-8 decoding of exactly the bytes read, and returns the
byte length of the resulting string; that length differs from the number of
bytes read when invalid sequences are replaced (one invalid byte decodes to
the three-byte replacement character). -/
theorem read_to_string_overwrites_and_returns_len :
    (∀ (chunks : Chunks) (buf1 buf2 : List Nat),
      read_to_string buf1 chunks = read_to_string buf2 chunks) ∧
    (∀ (chunks : Chunks) (buf : List Nat),
      (read_to_string buf chunks).1 =
        utf8DecodeLossy (read_to_end [] chunks).1 ∧
      (read_to_string buf chunks).2 = strLen (read_to_string buf chunks).1) ∧
    read_to_string [65] [[66]] = ([66], 1) ∧
    read_to_string [] [[0xFF]] = ([0xFFFD], 3) ∧
    (read_to_end [] [[0xFF]]).2 = 1 ∧
    (read_to_string [] [[0xFF]]).2 ≠ (read_to_end [] [[0xFF]]).2 := by
  refine ⟨fun chunks b1 b2 => rfl, fun chunks b => ⟨rfl, rfl⟩,
    ?_, ?_, rfl, ?_⟩ <;> decide
